import Mathlib

/-!
Shallow embedding of the POPG ingestion pipeline (src/trainer-optimized.js):
the text chunker, the embedding batcher, domain filtering, the crawl loop,
the vector-store writer and the page scraper, together with theorems
checking the specification's claims about them.

Strings from the JavaScript source are modelled as lists of characters,
machine numbers as natural numbers (all the quantities involved are
non-negative indices, lengths and counts), and the external services
(embedding API, vector store, HTTP fetch, PDF parser, HTML parser) as
explicit function or data parameters describing the outcome of each call.
-/

namespace POPG

set_option maxRecDepth 8192

/-- Code points removed by JavaScript String.prototype.trim and matched by
the character class backslash-s in a regular expression (the ECMAScript
WhiteSpace and LineTerminator sets). -/
def isJsWhitespace (c : Char) : Bool :=
  [9, 10, 11, 12, 13, 32, 160, 5760, 8192, 8193, 8194, 8195, 8196, 8197, 8198,
    8199, 8200, 8201, 8202, 8232, 8233, 8239, 8287, 12288, 65279].contains c.toNat

/-- JavaScript String.prototype.trim on a list of characters. -/
def jsTrim (s : List Char) : List Char :=
  ((s.dropWhile isJsWhitespace).reverse.dropWhile isJsWhitespace).reverse

/-- The shape of the CONFIG object of src/trainer-optimized.js (only the
fields the ingestion pipeline reads). -/
structure Config where
  maxDepth : Nat
  maxPages : Nat
  chunkSize : Nat
  chunkOverlap : Nat
  embeddingBatchSize : Nat
  maxTokensPerRequest : Nat
  maxContentSize : Nat
  maxPdfSize : Nat
  allowedDomains : List (List Char)
  enablePdfProcessing : Bool

/-- The concrete CONFIG values of src/trainer-optimized.js. -/
def CONFIG : Config where
  maxDepth := 3
  maxPages := 100
  chunkSize := 1500
  chunkOverlap := 150
  embeddingBatchSize := 15
  maxTokensPerRequest := 8000
  maxContentSize := 100000
  maxPdfSize := 10485760
  allowedDomains := ["popg.com".toList, "pop.vip".toList, "docs.google.com".toList]
  enablePdfProcessing := true

/-! ## The chunker: splitTextIntoChunks (src/trainer-optimized.js lines 194-239) -/

/-- JavaScript text.slice(start, e) for 0 ≤ start ≤ e. -/
def jsSlice (text : List Char) (start e : Nat) : List Char :=
  (text.drop start).take (e - start)

/-- The cursor update performed at the bottom of each iteration of the while
loop in splitTextIntoChunks: nextStart = end - overlap, and when that fails
to advance the cursor, start + floor(chunkSize / 2) instead. -/
def chunkNextStart (start cs ov len : Nat) : Nat :=
  if min (start + cs) len - ov ≤ start then start + cs / 2
  else min (start + cs) len - ov

/-- The chunk examined by the iteration at cursor position start, already
trimmed (the code pushes chunk.trim()). -/
def chunkAt (text : List Char) (cs start : Nat) : List Char :=
  jsTrim (jsSlice text start (min (start + cs) text.length))

/-- chunks.push(chunk.trim()), guarded by the minimum-quality test
chunk.trim().length > 100. -/
def pushChunk (acc : List (List Char)) (c : List Char) : List (List Char) :=
  if 100 < c.length then acc ++ [c] else acc

/-- The while loop of splitTextIntoChunks, with an explicit iteration budget
(the JavaScript loop is unbounded; fuel text.length is shown sufficient
below).  Each iteration pushes the trimmed chunk when it is longer than 100
characters, advances the cursor, and exits when the cursor passes the end of
the text or more than 1000 chunks have been emitted. -/
def chunkLoop : Nat → List Char → Nat → Nat → Nat → List (List Char) → List (List Char)
  | 0, _, _, _, _, acc => acc
  | fuel + 1, text, cs, ov, start, acc =>
    if start < text.length then
      if text.length ≤ chunkNextStart start cs ov text.length then
        pushChunk acc (chunkAt text cs start)
      else if 1000 < (pushChunk acc (chunkAt text cs start)).length then
        pushChunk acc (chunkAt text cs start)
      else
        chunkLoop fuel text cs ov (chunkNextStart start cs ov text.length)
          (pushChunk acc (chunkAt text cs start))
    else acc

/-- Validation at the top of splitTextIntoChunks: an invalid configuration
(chunkSize ≤ overlap) falls back to the default values 1500 and 150. -/
def validateChunkCfg (cs ov : Nat) : Nat × Nat :=
  if cs ≤ ov then (1500, 150) else (cs, ov)

/-- splitTextIntoChunks(text, chunkSize, overlap): empty text produces no
chunks, an invalid configuration falls back to the defaults, then the while
loop runs from cursor 0 with an empty chunk list. -/
def splitTextIntoChunks (text : List Char) (cs ov : Nat) : List (List Char) :=
  if text.length = 0 then []
  else
    chunkLoop text.length text (validateChunkCfg cs ov).1 (validateChunkCfg cs ov).2 0 []

/-- The same loop recording the (start, end) window examined by each
iteration, without trimming, without the 100-character quality filter and
without the 1000-chunk safety break.  Used to state exactly which spans of
the input the chunker examines and which it drops. -/
def chunkWindowsLoop : Nat → Nat → Nat → Nat → Nat → List (Nat × Nat) → List (Nat × Nat)
  | 0, _, _, _, _, acc => acc
  | fuel + 1, len, cs, ov, start, acc =>
    if start < len then
      if len ≤ chunkNextStart start cs ov len then acc ++ [(start, min (start + cs) len)]
      else
        chunkWindowsLoop fuel len cs ov (chunkNextStart start cs ov len)
          (acc ++ [(start, min (start + cs) len)])
    else acc

/-- The windows examined by splitTextIntoChunks text cs ov. -/
def chunkWindows (text : List Char) (cs ov : Nat) : List (Nat × Nat) :=
  if text.length = 0 then []
  else
    chunkWindowsLoop text.length text.length (validateChunkCfg cs ov).1
      (validateChunkCfg cs ov).2 0 []

/-! ### Chunker lemmas -/

lemma validateChunkCfg_lt (cs ov : Nat) :
    (validateChunkCfg cs ov).2 < (validateChunkCfg cs ov).1 := by
  unfold validateChunkCfg
  split
  · decide
  · rename_i h
    simp only
    omega

lemma lt_chunkNextStart {start cs ov len : Nat} (hov : ov < cs) (h : start < len) :
    start < chunkNextStart start cs ov len := by
  unfold chunkNextStart
  split <;> omega

lemma chunkNextStart_le_add {start cs ov len : Nat} :
    chunkNextStart start cs ov len ≤ start + cs := by
  unfold chunkNextStart
  split <;> omega

lemma chunkLoop_stop {text : List Char} {cs ov start : Nat} (h : ¬ start < text.length) :
    ∀ fuel acc, chunkLoop fuel text cs ov start acc = acc := by
  intro fuel acc
  cases fuel with
  | zero => rfl
  | succ n => simp [chunkLoop, h]

lemma chunkLoop_fuel_eq {text : List Char} {cs ov : Nat} (hov : ov < cs) :
    ∀ f g start acc, text.length - start ≤ f → text.length - start ≤ g →
      chunkLoop f text cs ov start acc = chunkLoop g text cs ov start acc := by
  intro f
  induction f with
  | zero =>
    intro g start acc hf _
    have h : ¬ start < text.length := by omega
    rw [chunkLoop_stop h, chunkLoop_stop h]
  | succ n ih =>
    intro g start acc hf hg
    by_cases h : start < text.length
    · obtain ⟨g', rfl⟩ : ∃ g', g = g' + 1 := by
        cases g with
        | zero => omega
        | succ m => exact ⟨m, rfl⟩
      have hadv := lt_chunkNextStart hov h
      simp only [chunkLoop, if_pos h]
      split
      · rfl
      · split
        · rfl
        · exact ih g' _ _ (by omega) (by omega)
    · rw [chunkLoop_stop h, chunkLoop_stop h]

lemma pushChunk_length_le (acc : List (List Char)) (c : List Char) :
    (pushChunk acc c).length ≤ acc.length + 1 := by
  unfold pushChunk
  split <;> simp

lemma le_pushChunk_length (acc : List (List Char)) (c : List Char) :
    acc.length ≤ (pushChunk acc c).length := by
  unfold pushChunk
  split <;> simp

lemma chunkLoop_length_le (text : List Char) (cs ov : Nat) :
    ∀ fuel start acc, acc.length ≤ 1000 →
      (chunkLoop fuel text cs ov start acc).length ≤ 1001 := by
  intro fuel
  induction fuel with
  | zero => intro start acc hacc; simpa [chunkLoop] using by omega
  | succ n ih =>
    intro start acc hacc
    by_cases h : start < text.length
    · simp only [chunkLoop, if_pos h]
      have h1 := pushChunk_length_le acc (chunkAt text cs start)
      split
      · omega
      · split
        · omega
        · exact ih _ _ (by omega)
    · simp only [chunkLoop, if_neg h]; omega

lemma le_chunkLoop_length (text : List Char) (cs ov : Nat) :
    ∀ fuel start acc, acc.length ≤ (chunkLoop fuel text cs ov start acc).length := by
  intro fuel
  induction fuel with
  | zero => intro start acc; simp [chunkLoop]
  | succ n ih =>
    intro start acc
    by_cases h : start < text.length
    · simp only [chunkLoop, if_pos h]
      have h1 := le_pushChunk_length acc (chunkAt text cs start)
      split
      · omega
      · split
        · omega
        · exact le_trans h1 (ih _ _)
    · simp [chunkLoop, h]

lemma chunkWindowsLoop_append (len cs ov : Nat) :
    ∀ fuel start acc, chunkWindowsLoop fuel len cs ov start acc
      = acc ++ chunkWindowsLoop fuel len cs ov start [] := by
  intro fuel
  induction fuel with
  | zero => intro start acc; simp [chunkWindowsLoop]
  | succ n ih =>
    intro start acc
    by_cases h : start < len
    · simp only [chunkWindowsLoop, if_pos h]
      split
      · simp
      · rw [ih _ (acc ++ [(start, min (start + cs) len)]),
          ih _ ([] ++ [(start, min (start + cs) len)])]
        simp
    · simp [chunkWindowsLoop, h]

lemma chunkWindowsLoop_cover {len cs ov : Nat} (hov : ov < cs) :
    ∀ fuel start acc, len - start ≤ fuel →
      ∀ i, start ≤ i → i < len →
        ∃ w ∈ chunkWindowsLoop fuel len cs ov start acc, w.1 ≤ i ∧ i < w.2 := by
  intro fuel
  induction fuel with
  | zero => intro start acc hf i hsi hil; omega
  | succ n ih =>
    intro start acc hf i hsi hil
    have h : start < len := by omega
    have hadv := lt_chunkNextStart hov h
    have hle : chunkNextStart start cs ov len ≤ start + cs := chunkNextStart_le_add
    simp only [chunkWindowsLoop, if_pos h]
    by_cases hi : i < min (start + cs) len
    · split
      · exact ⟨(start, min (start + cs) len), by simp, hsi, hi⟩
      · refine ⟨(start, min (start + cs) len), ?_, hsi, hi⟩
        rw [chunkWindowsLoop_append]
        simp
    · -- i lies past the current window, so the window ends strictly before
      -- len, hence at start + cs, and the next cursor is at most that
      have hmin : min (start + cs) len ≤ i := by omega
      have hnext : chunkNextStart start cs ov len ≤ i := by omega
      have hnl : chunkNextStart start cs ov len < len := by omega
      rw [if_neg (by omega)]
      exact ih _ _ (by omega) i hnext hil

lemma chunkLoop_eq_windows {text : List Char} {cs ov : Nat} (hov : ov < cs) :
    ∀ fuel start acc, text.length - start ≤ fuel →
      (chunkLoop fuel text cs ov start acc).length ≤ 1000 →
      chunkLoop fuel text cs ov start acc
        = acc ++ ((chunkWindowsLoop fuel text.length cs ov start []).map
            (fun w => jsTrim (jsSlice text w.1 w.2))).filter (fun c => 100 < c.length) := by
  intro fuel
  induction fuel with
  | zero =>
    intro start acc hf _
    have h : ¬ start < text.length := by omega
    simp [chunkLoop, chunkWindowsLoop]
  | succ n ih =>
    intro start acc hf hlen
    by_cases h : start < text.length
    · have hadv := lt_chunkNextStart hov h
      have hpush : pushChunk acc (chunkAt text cs start)
          = acc ++ (if 100 < (jsTrim (jsSlice text start (min (start + cs) text.length))).length
              then [jsTrim (jsSlice text start (min (start + cs) text.length))] else []) := by
        unfold pushChunk chunkAt
        split <;> simp_all
      simp only [chunkLoop, if_pos h] at hlen ⊢
      simp only [chunkWindowsLoop, if_pos h]
      split
      · rw [hpush]
        by_cases hc : 100 < (jsTrim (jsSlice text start (min (start + cs) text.length))).length <;>
          simp [hc]
      · rename_i hexit
        rw [if_neg hexit] at hlen
        by_cases hbreak : 1000 < (pushChunk acc (chunkAt text cs start)).length
        · rw [if_pos hbreak] at hlen
          exact absurd hbreak (by omega)
        · rw [if_neg hbreak] at hlen ⊢
          rw [ih _ _ (by omega) hlen,
            chunkWindowsLoop_append _ _ _ _ _ ([] ++ [(start, min (start + cs) text.length)]),
            hpush]
          by_cases hc : 100 < (jsTrim (jsSlice text start (min (start + cs) text.length))).length <;>
            simp [hc, List.filter_append]
    · have hs : ¬ start < text.length := h
      rw [chunkLoop_stop hs]
      simp [chunkWindowsLoop, hs]

lemma dropWhile_length_le (p : Char → Bool) (l : List Char) :
    (l.dropWhile p).length ≤ l.length := by
  induction l with
  | nil => simp [List.dropWhile]
  | cons a l ih =>
    rw [List.dropWhile_cons]
    split
    · exact le_trans ih (by simp)
    · simp

lemma jsTrim_length_le (s : List Char) : (jsTrim s).length ≤ s.length := by
  unfold jsTrim
  calc ((s.dropWhile isJsWhitespace).reverse.dropWhile isJsWhitespace).reverse.length
      = ((s.dropWhile isJsWhitespace).reverse.dropWhile isJsWhitespace).length := by
        rw [List.length_reverse]
    _ ≤ (s.dropWhile isJsWhitespace).reverse.length := dropWhile_length_le _ _
    _ = (s.dropWhile isJsWhitespace).length := by rw [List.length_reverse]
    _ ≤ s.length := dropWhile_length_le _ _

lemma jsSlice_length_le (text : List Char) (start e : Nat) :
    (jsSlice text start e).length ≤ text.length := by
  unfold jsSlice
  calc ((text.drop start).take (e - start)).length ≤ (text.drop start).length :=
        (List.length_take _ _).symm ▸ Nat.min_le_right _ _
    _ ≤ text.length := by simp [List.length_drop]

lemma chunkLoop_nil_of_short {text : List Char} {cs ov : Nat} (hshort : text.length ≤ 100) :
    ∀ fuel start acc, chunkLoop fuel text cs ov start acc = acc := by
  intro fuel
  induction fuel with
  | zero => intro start acc; rfl
  | succ n ih =>
    intro start acc
    have hpush : pushChunk acc (chunkAt text cs start) = acc := by
      unfold pushChunk
      rw [if_neg]
      have h1 := jsTrim_length_le (jsSlice text start (min (start + cs) text.length))
      have h2 := jsSlice_length_le text start (min (start + cs) text.length)
      unfold chunkAt
      omega
    by_cases h : start < text.length
    · simp only [chunkLoop, if_pos h, hpush]
      split
      · rfl
      · split
        · rfl
        · exact ih _ _
    · simp [chunkLoop, h]

/-! ### Chunker claim theorems (C1 and C2) -/

/-- A concrete input for the chunker: 150 letters followed by one space,
151 characters in total, well above the 100-character minimum chunk
length. -/
def chunkDropEx : List Char := List.replicate 150 'a' ++ [' ']

/-- C1 counterexample: the claim that every character of a text of length at
least the minimum chunk length appears in at least one emitted chunk is
false.  For 150 letters followed by a space (151 characters), with the
default chunkSize 1500 and overlap 150, the trailing space character appears
in no chunk: chunks are pushed trimmed, so boundary whitespace is lost. -/
theorem chunk_coverage_counterexample :
    100 < chunkDropEx.length ∧ (' ') ∈ chunkDropEx ∧
      ∀ c ∈ splitTextIntoChunks chunkDropEx 1500 150, (' ') ∉ c := by
  decide

/-- C1 (amended): every character of the input lies in at least one window
examined by splitTextIntoChunks, provided the 1000-chunk safety ceiling is
not reached; the emitted chunks are exactly the trimmed window contents
whose trimmed length exceeds 100 characters (so characters of windows that
trim to at most 100 characters, and whitespace trimmed from a window's
boundary, can appear in no emitted chunk); and for every text of at most 100
characters, zero chunks are emitted. -/
theorem chunk_coverage_amended (text : List Char) (cs ov : Nat)
    (hnb : (splitTextIntoChunks text cs ov).length ≤ 1000) :
    (∀ i, i < text.length → ∃ w ∈ chunkWindows text cs ov, w.1 ≤ i ∧ i < w.2) ∧
    splitTextIntoChunks text cs ov
      = ((chunkWindows text cs ov).map (fun w => jsTrim (jsSlice text w.1 w.2))).filter
          (fun c => 100 < c.length) ∧
    (text.length ≤ 100 → splitTextIntoChunks text cs ov = []) := by
  have hov := validateChunkCfg_lt cs ov
  refine ⟨?_, ?_, ?_⟩
  · intro i hi
    have hlen0 : ¬ text.length = 0 := by omega
    unfold chunkWindows
    rw [if_neg hlen0]
    exact chunkWindowsLoop_cover hov text.length 0 [] (by omega) i (Nat.zero_le _) hi
  · by_cases h0 : text.length = 0
    · unfold splitTextIntoChunks chunkWindows
      rw [if_pos h0, if_pos h0]
      simp
    · unfold splitTextIntoChunks at hnb
      unfold splitTextIntoChunks chunkWindows
      simp only [if_neg h0] at hnb ⊢
      simpa using chunkLoop_eq_windows hov text.length 0 [] (by omega) hnb
  · intro hshort
    unfold splitTextIntoChunks
    split
    · rfl
    · exact chunkLoop_nil_of_short hshort _ _ _

/-- Witness for chunk_coverage_amended at the concrete input chunkDropEx. -/
theorem chunk_coverage_amended_witness :
    (∀ i, i < chunkDropEx.length →
      ∃ w ∈ chunkWindows chunkDropEx 1500 150, w.1 ≤ i ∧ i < w.2) ∧
    splitTextIntoChunks chunkDropEx 1500 150
      = ((chunkWindows chunkDropEx 1500 150).map
          (fun w => jsTrim (jsSlice chunkDropEx w.1 w.2))).filter (fun c => 100 < c.length) ∧
    (chunkDropEx.length ≤ 100 → splitTextIntoChunks chunkDropEx 1500 150 = []) :=
  chunk_coverage_amended chunkDropEx 1500 150 (by decide)

/-- C2: for every text, every chunkSize > 0 and every overlap,
splitTextIntoChunks terminates: an invalid configuration (chunkSize ≤
overlap) falls back to the defaults 1500 and 150 instead of looping; after
validation the cursor strictly advances on every iteration; the loop
completes within text.length iterations (any fuel of at least text.length
computes the same value); and the hard safety ceiling bounds the number of
emitted chunks by 1001. -/
theorem chunker_termination (text : List Char) (cs ov : Nat) (hcs : 0 < cs) :
    (cs ≤ ov → splitTextIntoChunks text cs ov = splitTextIntoChunks text 1500 150) ∧
    (∀ start, start < text.length →
      start < chunkNextStart start (validateChunkCfg cs ov).1 (validateChunkCfg cs ov).2
        text.length) ∧
    (∀ fuel, text.length ≤ fuel →
      chunkLoop fuel text (validateChunkCfg cs ov).1 (validateChunkCfg cs ov).2 0 []
        = splitTextIntoChunks text cs ov) ∧
    (splitTextIntoChunks text cs ov).length ≤ 1001 := by
  have hov := validateChunkCfg_lt cs ov
  refine ⟨?_, ?_, ?_, ?_⟩
  · intro hle
    simp [splitTextIntoChunks, validateChunkCfg, hle]
  · intro start hs
    exact lt_chunkNextStart hov hs
  · intro fuel hfuel
    unfold splitTextIntoChunks
    by_cases h0 : text.length = 0
    · rw [if_pos h0]
      apply chunkLoop_stop
      omega
    · rw [if_neg h0]
      exact chunkLoop_fuel_eq hov fuel text.length 0 [] (by omega) (by omega)
  · unfold splitTextIntoChunks
    split
    · simp
    · exact chunkLoop_length_le text _ _ text.length 0 [] (by simp)

/-- Witness for chunker_termination at a concrete input: an invalid
configuration (chunkSize 5 ≤ overlap 7). -/
theorem chunker_termination_witness :
    (5 ≤ 7 → splitTextIntoChunks chunkDropEx 5 7 = splitTextIntoChunks chunkDropEx 1500 150) ∧
    (∀ start, start < chunkDropEx.length →
      start < chunkNextStart start (validateChunkCfg 5 7).1 (validateChunkCfg 5 7).2
        chunkDropEx.length) ∧
    (∀ fuel, chunkDropEx.length ≤ fuel →
      chunkLoop fuel chunkDropEx (validateChunkCfg 5 7).1 (validateChunkCfg 5 7).2 0 []
        = splitTextIntoChunks chunkDropEx 5 7) ∧
    (splitTextIntoChunks chunkDropEx 5 7).length ≤ 1001 :=
  chunker_termination chunkDropEx 5 7 (by decide)

/-! ## The embedding batcher: generateEmbeddings (src/trainer-optimized.js lines 244-366) -/

/-- An embedding vector (the embedding field of an API response item). -/
abbrev Vec := List Int

/-- totalChars, computed as textArray.reduce((sum, text) => sum + text.length, 0). -/
def totalChars (texts : List (List Char)) : Nat :=
  texts.foldl (fun sum text => sum + text.length) 0

/-- The local constant maxBatchSize of generateEmbeddings (the API's limit of
100 inputs per request). -/
def maxBatchSize : Nat := 100

/-- State of the greedy partition loop of generateEmbeddings' large-input
path: the sub-batches already flushed, the batch being accumulated and its
running character count. -/
structure BatchState where
  batches : List (List (List Char))
  currentBatch : List (List Char)
  currentBatchChars : Nat

/-- One iteration of the partition loop: when adding the next text would pass
the item-count limit, or would pass the character budget with a non-empty
current batch, the current batch is flushed as its own request; the text is
then appended to the (possibly fresh) current batch. -/
def batchStep (st : BatchState) (text : List Char) : BatchState :=
  if maxBatchSize ≤ st.currentBatch.length ∨
      (CONFIG.maxTokensPerRequest < st.currentBatchChars + text.length ∧
        0 < st.currentBatch.length) then
    { batches := st.batches ++ [st.currentBatch], currentBatch := [text],
      currentBatchChars := text.length }
  else
    { st with
        currentBatch := st.currentBatch ++ [text],
        currentBatchChars := st.currentBatchChars + text.length }

/-- The sub-batches issued by generateEmbeddings' large-input path, in flush
order (the final partial batch is flushed after the loop when non-empty). -/
def buildBatches (texts : List (List Char)) : List (List (List Char)) :=
  if 0 < (texts.foldl batchStep ⟨[], [], 0⟩).currentBatch.length then
    (texts.foldl batchStep ⟨[], [], 0⟩).batches
      ++ [(texts.foldl batchStep ⟨[], [], 0⟩).currentBatch]
  else (texts.foldl batchStep ⟨[], [], 0⟩).batches

/-- generateEmbeddings in the all-calls-succeed case.  The external API is
given as two functions: api for an array request (input: textArray) and
single for a one-string request (input: textArray[0]), each returning the
vectors for its request's inputs.  The three paths of the source are the
single request, the one-batch request (at most 100 texts and fewer than 8000
total characters), and the greedy partition whose sub-batch results are
concatenated in flush order. -/
def generateEmbeddings (api : List (List Char) → List Vec) (single : List Char → Vec)
    (textArray : List (List Char)) : List Vec :=
  if textArray.length = 1 then [single textArray.headI]
  else if textArray.length ≤ maxBatchSize ∧ totalChars textArray < CONFIG.maxTokensPerRequest
    then api textArray
  else ((buildBatches textArray).map api).flatten

/-! ### Batcher lemmas -/

lemma totalChars_concat (l : List (List Char)) (t : List Char) :
    totalChars (l ++ [t]) = totalChars l + t.length := by
  simp [totalChars, List.foldl_append]

lemma batchStep_flatten (st : BatchState) (t : List Char) :
    (batchStep st t).batches.flatten ++ (batchStep st t).currentBatch
      = st.batches.flatten ++ st.currentBatch ++ [t] := by
  unfold batchStep
  split <;> simp

lemma foldl_batchStep_flatten (texts : List (List Char)) :
    ∀ st : BatchState,
      (texts.foldl batchStep st).batches.flatten ++ (texts.foldl batchStep st).currentBatch
        = st.batches.flatten ++ st.currentBatch ++ texts := by
  induction texts with
  | nil => intro st; simp
  | cons t ts ih =>
    intro st
    rw [List.foldl_cons, ih (batchStep st t), batchStep_flatten]
    simp

lemma buildBatches_flatten (texts : List (List Char)) :
    (buildBatches texts).flatten = texts := by
  have h := foldl_batchStep_flatten texts ⟨[], [], 0⟩
  simp only [List.flatten_nil, List.nil_append] at h
  unfold buildBatches
  split
  · simpa using h
  · rename_i hcur
    have hnil : (texts.foldl batchStep ⟨[], [], 0⟩).currentBatch = [] := by
      cases hcb : (texts.foldl batchStep ⟨[], [], 0⟩).currentBatch with
      | nil => rfl
      | cons a l => rw [hcb] at hcur; simp at hcur
    rw [hnil, List.append_nil] at h
    exact h

/-- Property of a flushed sub-batch: at most 100 items, and within the 8000
character budget unless it is a single (oversized) text. -/
def goodBatch (b : List (List Char)) : Prop :=
  b.length ≤ maxBatchSize ∧ (totalChars b ≤ CONFIG.maxTokensPerRequest ∨ b.length = 1)

/-- Loop invariant of the greedy partition. -/
def batchInv (st : BatchState) : Prop :=
  st.currentBatchChars = totalChars st.currentBatch ∧
  st.currentBatch.length ≤ maxBatchSize ∧
  (totalChars st.currentBatch ≤ CONFIG.maxTokensPerRequest ∨ st.currentBatch.length ≤ 1) ∧
  ∀ b ∈ st.batches, goodBatch b

lemma batchStep_inv {st : BatchState} (h : batchInv st) (t : List Char) :
    batchInv (batchStep st t) := by
  obtain ⟨hc, hlen, hbud, hall⟩ := h
  unfold batchStep
  split
  · rename_i hflush
    refine ⟨by simp [totalChars], by simp [maxBatchSize], Or.inr (by simp), ?_⟩
    intro b hb
    simp only [List.mem_append, List.mem_singleton] at hb
    rcases hb with hb | hb
    · exact hall b hb
    · subst hb
      refine ⟨hlen, ?_⟩
      rcases hbud with h8 | h1
      · exact Or.inl h8
      · rcases hflush with hge | ⟨_, hpos⟩
        · rw [maxBatchSize] at hge
          exact Or.inr (by omega)
        · exact Or.inr (by omega)
  · rename_i hnoflush
    push_neg at hnoflush
    obtain ⟨hlt, hbudok⟩ := hnoflush
    refine ⟨by rw [totalChars_concat, hc], ?_, ?_, hall⟩
    · rw [maxBatchSize] at hlt ⊢
      simp only [List.length_append, List.length_singleton]
      omega
    · by_cases hpos : 0 < st.currentBatch.length
      · left
        have h8 : st.currentBatchChars + t.length ≤ CONFIG.maxTokensPerRequest := by
          by_contra hover
          have := hbudok (by omega)
          omega
        rw [totalChars_concat]
        omega
      · right
        simp only [List.length_append, List.length_singleton]
        omega

lemma foldl_batchStep_inv (texts : List (List Char)) :
    ∀ st : BatchState, batchInv st → batchInv (texts.foldl batchStep st) := by
  induction texts with
  | nil => intro st h; exact h
  | cons t ts ih =>
    intro st h
    rw [List.foldl_cons]
    exact ih _ (batchStep_inv h t)

lemma buildBatches_good (texts : List (List Char)) :
    ∀ b ∈ buildBatches texts, goodBatch b := by
  have hinv : batchInv (texts.foldl batchStep ⟨[], [], 0⟩) := by
    apply foldl_batchStep_inv
    refine ⟨by simp [totalChars], by simp [maxBatchSize], Or.inl (by simp [totalChars]), ?_⟩
    intro b hb
    simp at hb
  obtain ⟨hc, hlen, hbud, hall⟩ := hinv
  intro b hb
  unfold buildBatches at hb
  split at hb
  · rename_i hpos
    simp only [List.mem_append, List.mem_singleton] at hb
    rcases hb with hb | hb
    · exact hall b hb
    · subst hb
      exact ⟨hlen, by omega⟩
  · exact hall b hb

lemma flatten_map_map {α β : Type} (f : α → β) (l : List (List α)) :
    (l.map (List.map f)).flatten = l.flatten.map f := by
  induction l with
  | nil => simp
  | cons a l ih => simp only [List.map_cons, List.flatten_cons, List.map_append, ih]

/-! ### Batcher claim theorems (C3 and C4) -/

/-- C3: for every input sequence, when every embedding API call succeeds
(each call returns exactly the embeddings of its inputs, modelled by the
oracle emb), generateEmbeddings returns exactly one vector per input text
and the i-th vector is the embedding of the i-th text, across the single,
one-batch and partitioned paths. -/
theorem generateEmbeddings_order_preserving (api : List (List Char) → List Vec)
    (single : List Char → Vec) (emb : List Char → Vec) (textArray : List (List Char))
    (hapi : ∀ b, api b = b.map emb) (hsingle : ∀ t, single t = emb t) :
    generateEmbeddings api single textArray = textArray.map emb := by
  unfold generateEmbeddings
  split
  · rename_i h1
    obtain ⟨t, rfl⟩ := List.length_eq_one.1 h1
    simp [hsingle]
  · split
    · exact hapi textArray
    · have hmaps : (buildBatches textArray).map api
          = (buildBatches textArray).map (List.map emb) := by
        apply List.map_congr_left
        intro b _
        exact hapi b
      rw [hmaps, flatten_map_map, buildBatches_flatten]

/-- Witness for generateEmbeddings_order_preserving with the concrete API
that embeds a text as the one-element vector holding its length. -/
theorem generateEmbeddings_order_preserving_witness :
    generateEmbeddings (fun b => b.map (fun t => [(t.length : Int)]))
      (fun t => [(t.length : Int)]) [['a'], ['b', 'c']]
      = [['a'], ['b', 'c']].map (fun t => [(t.length : Int)]) :=
  generateEmbeddings_order_preserving _ _ (fun t => [(t.length : Int)]) _
    (fun _ => rfl) (fun _ => rfl)

/-- A text of 8001 characters, exceeding the per-request character budget on
its own. -/
def oversizedText : List Char := List.replicate 8001 'a'

/-- C4 counterexample: the claim that every flushed sub-batch holds at most
8000 total characters is false.  For the two-text input consisting of one
8001-character text and one 1-character text (which exceeds the single-batch
character budget, so the partition path runs), the partition flushes the
oversized text as a batch of 8001 characters. -/
theorem batch_budget_counterexample :
    ¬ (totalChars [oversizedText, ['b']] < CONFIG.maxTokensPerRequest) ∧
    buildBatches [oversizedText, ['b']] = [[oversizedText], [['b']]] ∧
    CONFIG.maxTokensPerRequest < totalChars [oversizedText] := by
  have h1 : oversizedText.length = 8001 := by
    unfold oversizedText
    exact List.length_replicate _ _
  have h8 : CONFIG.maxTokensPerRequest = 8000 := rfl
  have hstep1 : batchStep ⟨[], [], 0⟩ oversizedText = ⟨[], [oversizedText], 8001⟩ := by
    unfold batchStep
    rw [if_neg]
    · simp [h1]
    · simp [maxBatchSize]
  have hstep2 : batchStep ⟨[], [oversizedText], 8001⟩ ['b'] = ⟨[[oversizedText]], [['b']], 1⟩ := by
    unfold batchStep
    rw [if_pos]
    · rfl
    · refine Or.inr ⟨?_, by simp⟩
      rw [h8]
      simp
  refine ⟨?_, ?_, ?_⟩
  · simp only [totalChars, List.foldl_cons, List.foldl_nil, h8]
    simp [h1]
  · unfold buildBatches
    rw [show List.foldl batchStep ⟨[], [], 0⟩ [oversizedText, ['b']]
        = ⟨[[oversizedText]], [['b']], 1⟩ from by
      rw [List.foldl_cons, hstep1, List.foldl_cons, hstep2, List.foldl_nil]]
    rw [if_pos (by simp)]
    rfl
  · simp only [totalChars, List.foldl_cons, List.foldl_nil, h8]
    simp [h1]

/-- C4 (amended): the greedy partition preserves the input in flush order
(concatenating the sub-batches gives back the input sequence), and every
sub-batch has at most 100 items and at most 8000 total characters unless it
is a single text whose own length exceeds the budget (an oversized text is
flushed as its own one-item request). -/
theorem batch_partition_amended (texts : List (List Char)) :
    (buildBatches texts).flatten = texts ∧
    ∀ b ∈ buildBatches texts, b.length ≤ maxBatchSize ∧
      (totalChars b ≤ CONFIG.maxTokensPerRequest ∨ b.length = 1) :=
  ⟨buildBatches_flatten texts, buildBatches_good texts⟩

/-! ## Failure handling of generateEmbeddings (lines 332-365): the catch
block discriminating rate-limit (429) and malformed-request (400) errors -/

/-- Error classes the catch block of generateEmbeddings discriminates:
rate-limiting (status 429), malformed request (status 400), and every other
status. -/
inductive ApiError where
  | rateLimit : ApiError
  | badRequest : ApiError
  | other : Nat → ApiError
deriving DecidableEq

/-- The try block of generateEmbeddings with fallible API calls.  Each path
issues its requests in order, and the first failing call aborts the block
with that call's error (the thrown exception). -/
def embedAttempt (api : List (List Char) → Except ApiError (List Vec))
    (single : List Char → Except ApiError Vec) (textArray : List (List Char)) :
    Except ApiError (List Vec) :=
  if textArray.length = 1 then (single textArray.headI).map (fun v => [v])
  else if textArray.length ≤ maxBatchSize ∧ totalChars textArray < CONFIG.maxTokensPerRequest
    then api textArray
  else ((buildBatches textArray).mapM api).map List.flatten

/-- The per-item fallback of the 400 handler (lines 343-362): one single
request per text in input order; a failure of any individual request is
rethrown. -/
def individualFallback (single : List Char → Except ApiError Vec)
    (texts : List (List Char)) : Except ApiError (List Vec) :=
  texts.mapM single

/-- generateEmbeddings together with its catch block.  On a 429 error the
source waits five seconds and calls generateEmbeddings(textArray) again with
no attempt counter, so the retry recursion is modelled with explicit fuel:
none means the retry recursion was still re-entering the function when the
fuel ran out.  On a 400 error with more than one text it runs the per-item
fallback, whose own result (success or rethrown individual failure) is
final; every other error propagates to the caller. -/
def generateEmbeddingsRetry (api : List (List Char) → Except ApiError (List Vec))
    (single : List Char → Except ApiError Vec) :
    Nat → List (List Char) → Option (Except ApiError (List Vec))
  | 0, _ => none
  | n + 1, textArray =>
    match embedAttempt api single textArray with
    | .ok vs => some (.ok vs)
    | .error .rateLimit => generateEmbeddingsRetry api single n textArray
    | .error .badRequest =>
      if 1 < textArray.length then some (individualFallback single textArray)
      else some (.error .badRequest)
    | .error (.other s) => some (.error (.other s))

/-! ### Retry and fallback lemmas -/

lemma mapM_const_error {α : Type} (e : ApiError) :
    ∀ l : List α, l ≠ [] →
      (l.mapM (fun _ => (Except.error e : Except ApiError (List Vec)))) = .error e := by
  intro l hl
  cases l with
  | nil => exact absurd rfl hl
  | cons a l => rfl

lemma mapM_ok_of_all (single : List Char → Except ApiError Vec) (emb : List Char → Vec) :
    ∀ texts : List (List Char), (∀ t ∈ texts, single t = .ok (emb t)) →
      texts.mapM single = .ok (texts.map emb) := by
  intro texts
  induction texts with
  | nil => intro _; rfl
  | cons a l ih =>
    intro h
    rw [List.mapM_cons, h a (List.mem_cons_self a l), ih (fun t ht => h t (List.mem_cons_of_mem a ht))]
    rfl

lemma mapM_error_at (single : List Char → Except ApiError Vec) (e : ApiError) :
    ∀ (pre : List (List Char)) (t : List Char) (post : List (List Char)),
      (∀ u ∈ pre, ∃ v, single u = .ok v) → single t = .error e →
      (pre ++ t :: post).mapM single = .error e := by
  intro pre
  induction pre with
  | nil =>
    intro t post _ ht
    rw [List.nil_append, List.mapM_cons, ht]
    rfl
  | cons a l ih =>
    intro t post hpre ht
    obtain ⟨v, hv⟩ := hpre a (List.mem_cons_self a l)
    rw [List.cons_append, List.mapM_cons, hv,
      ih t post (fun u hu => hpre u (List.mem_cons_of_mem a hu)) ht]
    rfl

/-! ### Retry and fallback claim theorems (C5 and C6) -/

/-- C5: under persistent rate-limiting (every API call, batched or single,
returns status 429), generateEmbeddings never surfaces an error to the
caller after any bounded number of attempts: for every retry budget n the
recursion is still re-entering itself when the budget runs out.  The source
retries by calling itself with no attempt counter (CONFIG.maxRetries is
declared but never used), so the claimed bounded-retry-then-fatal-error
behaviour does not exist in the code. -/
theorem rate_limit_retry_unbounded (texts : List (List Char)) :
    ∀ n, generateEmbeddingsRetry (fun _ => .error .rateLimit) (fun _ => .error .rateLimit)
      n texts = none := by
  have hattempt : embedAttempt (fun _ => .error .rateLimit) (fun _ => .error .rateLimit) texts
      = .error .rateLimit := by
    unfold embedAttempt
    split
    · rfl
    · split
      · rfl
      · rename_i h1 h2
        have hne : buildBatches texts ≠ [] := by
          intro hb
          have hfl := buildBatches_flatten texts
          rw [hb] at hfl
          apply h2
          constructor
          · rw [← hfl]
            simp [maxBatchSize]
          · rw [← hfl]
            simp [totalChars, CONFIG]
        rw [mapM_const_error .rateLimit (buildBatches texts) hne]
        rfl
  intro n
  induction n with
  | zero => rfl
  | succ m ih =>
    unfold generateEmbeddingsRetry
    rw [hattempt]
    exact ih

/-- C6: when the try block fails with status 400 and the input holds more
than one text, generateEmbeddings falls back to one request per text in
input order; if every individual request succeeds the fallback returns the
embeddings in input order, and a failure of any individual request is
rethrown to the caller instead of being skipped. -/
theorem bad_request_fallback (api : List (List Char) → Except ApiError (List Vec))
    (single : List Char → Except ApiError Vec) (texts : List (List Char)) (n : Nat)
    (hn : 0 < n) (hlen : 1 < texts.length)
    (hbad : embedAttempt api single texts = .error .badRequest) :
    generateEmbeddingsRetry api single n texts = some (individualFallback single texts) ∧
    (∀ emb : List Char → Vec, (∀ t ∈ texts, single t = .ok (emb t)) →
      individualFallback single texts = .ok (texts.map emb)) ∧
    (∀ pre t post e, texts = pre ++ t :: post →
      (∀ u ∈ pre, ∃ v, single u = .ok v) → single t = .error e →
      individualFallback single texts = .error e) := by
  refine ⟨?_, ?_, ?_⟩
  · obtain ⟨m, rfl⟩ : ∃ m, n = m + 1 := ⟨n - 1, by omega⟩
    unfold generateEmbeddingsRetry
    rw [hbad]
    simp only [if_pos hlen]
  · intro emb h
    exact mapM_ok_of_all single emb texts h
  · intro pre t post e hsplit hpre ht
    unfold individualFallback
    rw [hsplit]
    exact mapM_error_at single e pre t post hpre ht

/-- Witness for bad_request_fallback: a two-text input, an array API that
always answers 400, and a single API embedding a text as the vector holding
its length. -/
theorem bad_request_fallback_witness :
    (generateEmbeddingsRetry (fun _ => .error .badRequest)
        (fun t => .ok [(t.length : Int)]) 1 [['a'], ['b']]
      = some (individualFallback (fun t => .ok [(t.length : Int)]) [['a'], ['b']])) ∧
    (∀ emb : List Char → Vec,
      (∀ t ∈ [['a'], ['b']], (Except.ok [(t.length : Int)] : Except ApiError Vec)
        = .ok (emb t)) →
      individualFallback (fun t => .ok [(t.length : Int)]) [['a'], ['b']]
        = .ok ([['a'], ['b']].map emb)) ∧
    (∀ pre t post e, ([['a'], ['b']] : List (List Char)) = pre ++ t :: post →
      (∀ u ∈ pre, ∃ v, (Except.ok [(u.length : Int)] : Except ApiError Vec) = .ok v) →
      (Except.ok [(t.length : Int)] : Except ApiError Vec) = .error e →
      individualFallback (fun t => .ok [(t.length : Int)]) [['a'], ['b']] = .error e) :=
  bad_request_fallback (fun _ => .error .badRequest) (fun t => .ok [(t.length : Int)])
    [['a'], ['b']] 1 (by decide) (by decide) rfl

/-! ## Domain filtering: isAllowedDomain (src/trainer-optimized.js lines 67-76) -/

/-- isAllowedDomain(url).  Parsing by the URL class is external: the
function receives the parsed hostname, or none when the URL constructor
threw (in which case the catch block returns false).  A hostname is allowed
when it equals a configured allowed domain or ends with a dot followed by
one (hostname.endsWith('.' + domain)). -/
def isAllowedDomain (host : Option (List Char)) : Bool :=
  match host with
  | none => false
  | some hostname =>
    CONFIG.allowedDomains.any (fun domain =>
      hostname == domain || List.isSuffixOf ('.' :: domain) hostname)

/-- C7: a hostname passes isAllowedDomain exactly when it equals an allowed
domain or ends with a dot followed by one; in particular sub.popg.com is
accepted (popg.com is in the allow-list) while evil-popg.com is rejected
(no suffix match without the dot separator). -/
theorem isAllowedDomain_spec (host : List Char) :
    (isAllowedDomain (some host) = true ↔
      ∃ d ∈ CONFIG.allowedDomains, host = d ∨ ∃ pre, host = pre ++ ('.' :: d)) ∧
    isAllowedDomain (some "sub.popg.com".toList) = true ∧
    isAllowedDomain (some "evil-popg.com".toList) = false := by
  refine ⟨?_, by decide, by decide⟩
  show (CONFIG.allowedDomains.any (fun domain =>
      host == domain || List.isSuffixOf ('.' :: domain) host)) = true ↔ _
  rw [List.any_eq_true]
  constructor
  · rintro ⟨d, hd, hmatch⟩
    refine ⟨d, hd, ?_⟩
    rw [Bool.or_eq_true, beq_iff_eq] at hmatch
    rcases hmatch with h | h
    · exact Or.inl h
    · right
      obtain ⟨t, ht⟩ := List.isSuffixOf_iff_suffix.1 h
      exact ⟨t, ht.symm⟩
  · rintro ⟨d, hd, hmatch⟩
    refine ⟨d, hd, ?_⟩
    rw [Bool.or_eq_true, beq_iff_eq]
    rcases hmatch with h | ⟨pre, hpre⟩
    · exact Or.inl h
    · right
      exact List.isSuffixOf_iff_suffix.2 ⟨pre, hpre.symm⟩

/-! ## The crawl orchestrator: crawlWebsite (src/trainer-optimized.js lines 463-536) -/

/-- A URL as the crawler sees it: the raw string plus the hostname and the
lower-level pathname that the external URL class would parse out of it (none
when the URL constructor would throw). -/
structure UrlM where
  raw : List Char
  host : Option (List Char)
  path : Option (List Char)
deriving DecidableEq

/-- A page document as returned by scrapePage / processPdf. -/
structure PageDoc where
  url : UrlM
  title : List Char
  description : List Char
  keywords : List Char
  content : List Char
  internalLinks : List UrlM
  isPdf : Bool
  pageCount : Nat
deriving DecidableEq

/-- A frontier entry: { url, depth }. -/
structure FrontierEntry where
  url : UrlM
  depth : Nat
deriving DecidableEq

/-- The mutable state of the crawl loop: the FIFO frontier, the visited set
(a JavaScript Set of URL strings, modelled as the list of insertions) and
the collected page documents. -/
structure CrawlState where
  pagesToVisit : List FrontierEntry
  visitedPages : List UrlM
  scrapedContent : List PageDoc
deriving DecidableEq

/-- One iteration of the crawl while-loop, with the page fetch as an
external parameter (scrape url is the outcome of await scrapePage(url)).
The second component records the fetch: some url exactly when scrapePage was
invoked on url during the iteration, none when the dequeued entry was
skipped.  A dequeued entry already visited, deeper than maxDepth or outside
the allowed domains is dropped without a fetch; otherwise the URL is marked
visited, the page is fetched, and for a sufficiently long non-PDF page below
the depth limit its links are appended to the frontier unless already
visited, already queued or outside the allowed domains. -/
def crawlStep (scrape : UrlM → Option PageDoc) (s : CrawlState) : CrawlState × Option UrlM :=
  match s.pagesToVisit with
  | [] => (s, none)
  | entry :: rest =>
    if entry.url ∈ s.visitedPages ∨ CONFIG.maxDepth < entry.depth ∨
        isAllowedDomain entry.url.host = false then
      ({ s with pagesToVisit := rest }, none)
    else
      match scrape entry.url with
      | some pageData =>
        if 200 < pageData.content.length then
          ({ pagesToVisit :=
               if pageData.isPdf = false ∧ entry.depth < CONFIG.maxDepth then
                 pageData.internalLinks.foldl (fun q link =>
                   if link ∉ (s.visitedPages ++ [entry.url]) ∧
                       (q.any (fun p => p.url = link)) = false ∧
                       isAllowedDomain link.host = true then
                     q ++ [{ url := link, depth := entry.depth + 1 }]
                   else q) rest
               else rest,
             visitedPages := s.visitedPages ++ [entry.url],
             scrapedContent := s.scrapedContent ++ [pageData] }, some entry.url)
        else
          ({ s with
              pagesToVisit := rest,
              visitedPages := s.visitedPages ++ [entry.url] }, some entry.url)
      | none =>
        ({ s with
            pagesToVisit := rest,
            visitedPages := s.visitedPages ++ [entry.url] }, some entry.url)

lemma crawlStep_measure (scrape : UrlM → Option PageDoc) (s : CrawlState)
    (hq : s.pagesToVisit ≠ []) :
    ((crawlStep scrape s).1.visitedPages.length = s.visitedPages.length ∧
      (crawlStep scrape s).1.pagesToVisit.length < s.pagesToVisit.length) ∨
    (crawlStep scrape s).1.visitedPages.length = s.visitedPages.length + 1 := by
  obtain ⟨queue, visited, scraped⟩ := s
  cases queue with
  | nil => exact absurd rfl hq
  | cons entry rest =>
    simp only [crawlStep]
    split
    · left
      constructor
      · rfl
      · simp
    · cases scrape entry.url with
      | none =>
        right
        simp
      | some pageData =>
        dsimp only
        by_cases hc : 200 < pageData.content.length
        · rw [if_pos hc]
          right
          simp
        · rw [if_neg hc]
          right
          simp

/-- The crawl while-loop: while (pagesToVisit.length > 0 && visitedPages.size
< CONFIG.maxPages).  Terminates because every iteration either consumes a
frontier entry without touching the visited set or grows the visited set,
which the guard bounds by maxPages. -/
def crawlLoop (scrape : UrlM → Option PageDoc) (s : CrawlState) : CrawlState :=
  if s.pagesToVisit = [] ∨ CONFIG.maxPages ≤ s.visitedPages.length then s
  else crawlLoop scrape (crawlStep scrape s).1
termination_by (CONFIG.maxPages - s.visitedPages.length, s.pagesToVisit.length)
decreasing_by
  rename_i hguard
  rw [not_or] at hguard
  obtain ⟨hne, hlt⟩ := hguard
  rcases crawlStep_measure scrape s hne with ⟨h1, h2⟩ | h1
  · rw [h1]
    exact Prod.Lex.right _ h2
  · apply Prod.Lex.left
    omega

/-- crawlWebsite(startUrls): every seed enters the frontier at depth 0, the
loop runs to its terminal condition, and the collected page documents are
returned. -/
def crawlWebsite (scrape : UrlM → Option PageDoc) (startUrls : List UrlM) : List PageDoc :=
  (crawlLoop scrape
    { pagesToVisit := startUrls.map (fun url => { url := url, depth := 0 }),
      visitedPages := [], scrapedContent := [] }).scrapedContent

/-! ### Crawl claim theorem (C8) -/

/-- C8: a dequeued frontier entry that is already visited, deeper than the
configured maximum depth, or outside the allowed domains is skipped without
any fetch (the step drops it from the frontier, changes nothing else and
invokes scrapePage on nothing), any other dequeued entry is fetched, and the
crawl loop stops exactly when the frontier is empty or the visited set has
reached the configured maximum page count. -/
theorem crawl_skip_and_termination (scrape : UrlM → Option PageDoc) (s : CrawlState) :
    (∀ entry rest, s.pagesToVisit = entry :: rest →
      (entry.url ∈ s.visitedPages ∨ CONFIG.maxDepth < entry.depth ∨
        isAllowedDomain entry.url.host = false) →
      crawlStep scrape s = ({ s with pagesToVisit := rest }, none)) ∧
    (∀ entry rest, s.pagesToVisit = entry :: rest →
      ¬ (entry.url ∈ s.visitedPages ∨ CONFIG.maxDepth < entry.depth ∨
        isAllowedDomain entry.url.host = false) →
      (crawlStep scrape s).2 = some entry.url) ∧
    ((s.pagesToVisit = [] ∨ CONFIG.maxPages ≤ s.visitedPages.length) →
      crawlLoop scrape s = s) := by
  refine ⟨?_, ?_, ?_⟩
  · intro entry rest hq hskip
    obtain ⟨queue, visited, scraped⟩ := s
    simp only at hq
    subst hq
    simp only [crawlStep]
    rw [if_pos]
    exact hskip
  · intro entry rest hq hskip
    obtain ⟨queue, visited, scraped⟩ := s
    simp only at hq
    subst hq
    simp only [crawlStep]
    rw [if_neg hskip]
    cases scrape entry.url with
    | none => rfl
    | some pageData =>
      dsimp only
      by_cases hc : 200 < pageData.content.length
      · rw [if_pos hc]
      · rw [if_neg hc]
  · intro hterm
    rw [crawlLoop]
    rw [if_pos hterm]

/-- An unparseable URL (the URL constructor throws, so isAllowedDomain
returns false on it). -/
def badUrl : UrlM := { raw := "not a url".toList, host := none, path := none }

/-- Witness for crawl_skip_and_termination: a frontier holding one entry with
an unparseable (hence disallowed) URL is dropped without a fetch, and the
loop with an empty frontier stops at once. -/
theorem crawl_skip_and_termination_witness :
    (crawlStep (fun _ => none)
        { pagesToVisit := [{ url := badUrl, depth := 0 }], visitedPages := [],
          scrapedContent := [] }
      = ({ pagesToVisit := [], visitedPages := [], scrapedContent := [] }, none)) ∧
    crawlLoop (fun _ => none)
        { pagesToVisit := [], visitedPages := [], scrapedContent := [] }
      = { pagesToVisit := [], visitedPages := [], scrapedContent := [] } := by
  constructor
  · exact (crawl_skip_and_termination (fun _ => none) _).1 _ [] rfl (Or.inr (Or.inr rfl))
  · exact (crawl_skip_and_termination (fun _ => none) _).2.2 (Or.inl rfl)

/-! ## The vector-store writer: storeInChromaDB (src/trainer-optimized.js lines 541-659) -/

/-- One stored record: the parallel entries of a collection.add call — the
chunk text, its vector, the metadata fields, and the four components of the
id string page_(pageIndex)_chunk_(chunkIndex)_(timestamp)_(j). -/
structure ChunkRecord where
  document : List Char
  embedding : Vec
  meta_url : List Char
  meta_title : List Char
  meta_description : List Char
  meta_keywords : List Char
  chunk_index : Nat
  total_chunks : Nat
  page_index : Nat
  chunk_size : Nat
  id_page : Nat
  id_chunk : Nat
  id_time : Nat
  id_j : Nat
deriving DecidableEq

/-- A ChromaDB collection: its metadata description and its records. -/
structure Collection where
  meta : List Char
  records : List ChunkRecord
deriving DecidableEq

/-- The ChromaDB store: its collections keyed by name. -/
abbrev Store := List (List Char × Collection)

/-- chroma.deleteCollection({name}): removes the named collection.  When it
is absent the client throws, the surrounding try/catch logs and continues,
and the store is unchanged — in both cases the result is the store without
the named collection, and the run proceeds. -/
def deleteCollection (st : Store) (name : List Char) : Store :=
  st.filter (fun c => ¬ c.1 = name)

/-- chroma.createCollection({name, metadata}). -/
def createCollection (st : Store) (name meta : List Char) : Store :=
  st ++ [(name, { meta := meta, records := [] })]

/-- collection.add: appends the batch's parallel arrays to the named
collection. -/
def collectionAdd (st : Store) (name : List Char) (recs : List ChunkRecord) : Store :=
  st.map (fun c =>
    if c.1 = name then (c.1, { meta := c.2.meta, records := c.2.records ++ recs }) else c)

/-- Lookup of a collection by name. -/
def getCollection (st : Store) (name : List Char) : Option Collection :=
  (st.find? (fun c => c.1 == name)).map (fun c => c.2)

/-- The fixed destination collection name popg_content. -/
def collectionName : List Char := "popg_content".toList

/-- The fixed collection metadata description. -/
def collectionMeta : List Char := "POPG website content for AI chatbot".toList

/-- chunks.slice(i, i + k) for i = 0, k, 2k, ...: a page's chunk batches of
size CONFIG.embeddingBatchSize. -/
def sliceBatches (k : Nat) (l : List (List Char)) : List (List (List Char)) :=
  if l = [] then []
  else if k = 0 then []
  else l.take k :: sliceBatches k (l.drop k)
termination_by l.length
decreasing_by
  rename_i h1 h2
  have hpos : 0 < l.length := List.length_pos.2 h1
  rw [List.length_drop]
  omega

/-- The records prepared for one collection.add call: the j-th chunk of the
batch starting at overall index i has chunk index i + j, carries the page's
metadata, and an id built from the page index, the chunk index, the
Date.now() timestamp (the parameter ts of the model) and j. -/
def batchRecords (emb : List Char → Vec) (ts : Nat) (page : PageDoc) (pageIndex : Nat)
    (totalChunks : Nat) (i : Nat) (batchChunks : List (List Char)) : List ChunkRecord :=
  batchChunks.enum.map (fun p =>
    { document := p.2
      embedding := emb p.2
      meta_url := page.url.raw
      meta_title := page.title
      meta_description := page.description
      meta_keywords := page.keywords
      chunk_index := i + p.1
      total_chunks := totalChunks
      page_index := pageIndex
      chunk_size := p.2.length
      id_page := pageIndex
      id_chunk := i + p.1
      id_time := ts
      id_j := p.1 })

/-- The add-call payloads of one page: its content is chunked with the
default configuration and processed in batches of CONFIG.embeddingBatchSize
chunks; a page with no chunks contributes no calls.  Batch number bn starts
at overall chunk index bn * CONFIG.embeddingBatchSize. -/
def pageRecords (emb : List Char → Vec) (ts : Nat) (pageIndex : Nat) (page : PageDoc) :
    List (List ChunkRecord) :=
  if (splitTextIntoChunks page.content CONFIG.chunkSize CONFIG.chunkOverlap).length = 0 then []
  else
    (sliceBatches CONFIG.embeddingBatchSize
        (splitTextIntoChunks page.content CONFIG.chunkSize CONFIG.chunkOverlap)).enum.map
      (fun b => batchRecords emb ts page pageIndex
        (splitTextIntoChunks page.content CONFIG.chunkSize CONFIG.chunkOverlap).length
        (b.1 * CONFIG.embeddingBatchSize) b.2)

/-- All add-call payloads of an ingestion run, in page order. -/
def runBatches (emb : List Char → Vec) (ts : Nat) (scraped : List PageDoc) :
    List (List ChunkRecord) :=
  (scraped.enum.map (fun p => pageRecords emb ts p.1 p.2)).flatten

/-- storeInChromaDB with every embedding and store call succeeding: delete
the destination collection if present (absence is caught and ignored),
create it fresh with the fixed name and metadata, then issue one
collection.add per batch of every page's chunks. -/
def storeInChromaDB (emb : List Char → Vec) (ts : Nat) (scraped : List PageDoc)
    (st : Store) : Store :=
  (runBatches emb ts scraped).foldl
    (fun acc b => collectionAdd acc collectionName b)
    (createCollection (deleteCollection st collectionName) collectionName collectionMeta)

/-! ### Store lemmas -/

lemma collectionAdd_of_absent (recs : List ChunkRecord) :
    ∀ st : Store, (∀ c ∈ st, ¬ c.1 = collectionName) →
      collectionAdd st collectionName recs = st := by
  intro st
  induction st with
  | nil => intro _; rfl
  | cons a l ih =>
    intro h
    unfold collectionAdd at ih ⊢
    simp only [List.map_cons]
    rw [if_neg (h a (List.mem_cons_self a l)),
      ih (fun c hc => h c (List.mem_cons_of_mem a hc))]

lemma collectionAdd_append_name (st : Store) (col : Collection) (recs : List ChunkRecord)
    (h : ∀ c ∈ st, ¬ c.1 = collectionName) :
    collectionAdd (st ++ [(collectionName, col)]) collectionName recs
      = st ++ [(collectionName, { meta := col.meta, records := col.records ++ recs })] := by
  have h1 : collectionAdd (st ++ [(collectionName, col)]) collectionName recs
      = collectionAdd st collectionName recs
        ++ collectionAdd [(collectionName, col)] collectionName recs := by
    unfold collectionAdd
    exact List.map_append _ _ _
  rw [h1, collectionAdd_of_absent recs st h]
  simp [collectionAdd]

lemma foldl_add_records (batches : List (List ChunkRecord)) :
    ∀ (st : Store) (col : Collection), (∀ c ∈ st, ¬ c.1 = collectionName) →
      batches.foldl (fun acc b => collectionAdd acc collectionName b)
          (st ++ [(collectionName, col)])
        = st ++ [(collectionName,
            { meta := col.meta, records := col.records ++ batches.flatten })] := by
  induction batches with
  | nil => intro st col h; simp
  | cons b bs ih =>
    intro st col h
    rw [List.foldl_cons, collectionAdd_append_name st col b h, ih st _ h]
    simp

lemma getCollection_append (col : Collection) :
    ∀ st : Store, (∀ c ∈ st, ¬ c.1 = collectionName) →
      getCollection (st ++ [(collectionName, col)]) collectionName = some col := by
  intro st
  induction st with
  | nil =>
    intro _
    simp [getCollection]
  | cons a l ih =>
    intro h
    rw [List.cons_append]
    unfold getCollection at ih ⊢
    rw [List.find?_cons_of_neg, ih (fun c hc => h c (List.mem_cons_of_mem a hc))]
    simp [h a (List.mem_cons_self a l)]

lemma deleteCollection_absent (st : Store) :
    ∀ c ∈ deleteCollection st collectionName, ¬ c.1 = collectionName := by
  intro c hc
  unfold deleteCollection at hc
  rw [List.mem_filter] at hc
  simpa using hc.2

lemma storeInChromaDB_collection (emb : List Char → Vec) (ts : Nat)
    (scraped : List PageDoc) (st : Store) :
    getCollection (storeInChromaDB emb ts scraped st) collectionName
      = some { meta := collectionMeta, records := (runBatches emb ts scraped).flatten } := by
  unfold storeInChromaDB createCollection
  rw [foldl_add_records (runBatches emb ts scraped) _ _ (deleteCollection_absent st),
    getCollection_append _ _ (deleteCollection_absent st)]
  simp

/-! ### Store claim theorem (C9) -/

/-- C9: a run of storeInChromaDB removes any existing destination collection
(whether or not one is present: absence is caught, not fatal), recreates it
fresh under the fixed name, and fills it with exactly the records of this
run — so after two runs against the same collection name the store holds
only the second run's records, with no stale or duplicate chunks from the
first, and the result does not depend on the prior store state at all. -/
theorem collection_replacement (emb : List Char → Vec) (ts1 ts2 : Nat)
    (scraped1 scraped2 : List PageDoc) (st : Store) :
    getCollection (storeInChromaDB emb ts2 scraped2 (storeInChromaDB emb ts1 scraped1 st))
        collectionName
      = some { meta := collectionMeta, records := (runBatches emb ts2 scraped2).flatten } ∧
    getCollection (storeInChromaDB emb ts2 scraped2 st) collectionName
      = some { meta := collectionMeta, records := (runBatches emb ts2 scraped2).flatten } :=
  ⟨storeInChromaDB_collection emb ts2 scraped2 _, storeInChromaDB_collection emb ts2 scraped2 st⟩

/-! ## The page scraper: processPdf (lines 93-169) and scrapePage (lines 371-458) -/

/-- A thrown JavaScript error, identified by its message. -/
structure JsError where
  message : List Char
deriving DecidableEq

/-- A parsed PDF document: for each page in order, either the text items
page.getTextContent() would yield, or the page's own error (which the
per-page catch logs and skips). -/
structure PdfDoc where
  pages : List (Except JsError (List (List Char)))

/-- The downloaded PDF response: its byte length and the outcome
pdfjsLib.getDocument produces on its bytes. -/
structure PdfBytes where
  byteLength : Nat
  parsed : Except JsError PdfDoc

/-- fullText as built by processPdf: per successful page in order, the
page's items joined with single spaces plus a trailing newline; a failed
page contributes nothing. -/
def pdfFullText (d : PdfDoc) : List Char :=
  d.pages.foldl (fun acc pg =>
    match pg with
    | .ok items => acc ++ (List.intercalate [' '] items ++ ['\n'])
    | .error _ => acc) []

/-- text.replace of every maximal whitespace run by one space. -/
def collapseWs : List Char → List Char
  | [] => []
  | c :: rest =>
    if isJsWhitespace c then ' ' :: collapseWs (rest.dropWhile isJsWhitespace)
    else c :: collapseWs rest
termination_by l => l.length
decreasing_by
  · have h := dropWhile_length_le isJsWhitespace rest
    simp only [List.length_cons]
    omega
  · simp only [List.length_cons]
    omega

/-- text.replace of every maximal newline run by one newline. -/
def collapseNl : List Char → List Char
  | [] => []
  | c :: rest =>
    if c = '\n' then '\n' :: collapseNl (rest.dropWhile (fun d => d == '\n'))
    else c :: collapseNl rest
termination_by l => l.length
decreasing_by
  · have h := dropWhile_length_le (fun d => d == '\n') rest
    simp only [List.length_cons]
    omega
  · simp only [List.length_cons]
    omega

/-- url.split('/').pop(): the last slash-separated segment. -/
def lastSegment (s : List Char) : List Char := (s.splitOn '/').getLastD []

/-- The body of processPdf as a fallible computation over the download
outcome: a thrown download or getDocument error aborts it (caught by the
surrounding catch), an oversized response or insufficient extracted text
returns null, and otherwise the cleaned, size-capped text becomes a PDF
page document with no outbound links. -/
def processPdfBody (url : UrlM) (fetchRes : Except JsError PdfBytes) :
    Except JsError (Option PageDoc) :=
  match fetchRes with
  | .error e => .error e
  | .ok bytes =>
    if CONFIG.maxPdfSize < bytes.byteLength then .ok none
    else
      match bytes.parsed with
      | .error e => .error e
      | .ok pdfDocument =>
        if (jsTrim (pdfFullText pdfDocument)).length < 200 then .ok none
        else
          .ok (some
            { url := url
              title := "PDF Document: ".toList ++ lastSegment url.raw
              description := "PDF document content".toList
              keywords := "pdf, document".toList
              content :=
                if CONFIG.maxContentSize
                    < (jsTrim (collapseNl (collapseWs (pdfFullText pdfDocument)))).length
                then (jsTrim (collapseNl (collapseWs (pdfFullText pdfDocument)))).take
                  CONFIG.maxContentSize
                else jsTrim (collapseNl (collapseWs (pdfFullText pdfDocument)))
              internalLinks := []
              isPdf := true
              pageCount := pdfDocument.pages.length })

/-- processPdf: its whole body runs inside a single try/catch whose catch
logs a warning and returns null. -/
def processPdf (url : UrlM) (fetchRes : Except JsError PdfBytes) : Option PageDoc :=
  match processPdfBody url fetchRes with
  | .ok v => v
  | .error _ => none

/-- isPdfUrl(url): the lower-cased pathname ends in .pdf; a URL that fails
to parse yields false via the catch block. -/
def isPdfUrl (u : UrlM) : Bool :=
  match u.path with
  | none => false
  | some p => List.isSuffixOf (".pdf".toList) (p.map Char.toLower)

/-- The outcome of fetching and parsing an HTML page: the metadata cheerio
extracts, the cleaned text extractTextContent produces, and, for each anchor
of the two link-collection passes, the URL normalizeUrl returns (none for
dropped empty/fragment/javascript:/mailto:/unparseable targets). -/
structure HtmlData where
  title : List Char
  description : List Char
  keywords : List Char
  extractedText : List Char
  anchorUrls : List (Option UrlM)
  pdfAnchorUrls : List (Option UrlM)

/-- Order-preserving removal of duplicates, as done by the spread of a new
Set over the collected links. -/
def dedupFirst (l : List UrlM) : List UrlM :=
  l.foldl (fun acc u => if u ∈ acc then acc else acc ++ [u]) []

/-- The two link-collection passes of scrapePage: every normalized anchor
URL within the allowed domains, then (when PDF processing is enabled) every
normalized PDF anchor URL within the allowed domains, appended in document
order. -/
def scrapeLinks (data : HtmlData) : List UrlM :=
  if CONFIG.enablePdfProcessing then
    data.pdfAnchorUrls.foldl (fun acc o =>
      match o with
      | some nu => if isPdfUrl nu && isAllowedDomain nu.host then acc ++ [nu] else acc
      | none => acc)
      (data.anchorUrls.foldl (fun acc o =>
        match o with
        | some nu => if isAllowedDomain nu.host then acc ++ [nu] else acc
        | none => acc) [])
  else
    data.anchorUrls.foldl (fun acc o =>
      match o with
      | some nu => if isAllowedDomain nu.host then acc ++ [nu] else acc
      | none => acc) []

/-- The body of scrapePage as a fallible computation: a PDF URL (with PDF
processing enabled) delegates to processPdf, whose result — never an
exception — is returned as is; otherwise the HTML fetch outcome is consumed,
pages with fewer than 200 extracted characters become null, content is
size-capped, and the two anchor passes collect the allowed-domain links in
order with duplicates removed. -/
def scrapePageBody (url : UrlM) (pdfFetch : Except JsError PdfBytes)
    (htmlFetch : Except JsError HtmlData) : Except JsError (Option PageDoc) :=
  if isPdfUrl url && CONFIG.enablePdfProcessing then .ok (processPdf url pdfFetch)
  else
    match htmlFetch with
    | .error e => .error e
    | .ok data =>
      if data.extractedText.length < 200 then .ok none
      else
        .ok (some
          { url := url
            title := if jsTrim data.title = [] then "Untitled".toList else jsTrim data.title
            description := data.description
            keywords := data.keywords
            content := if CONFIG.maxContentSize < data.extractedText.length
              then data.extractedText.take CONFIG.maxContentSize else data.extractedText
            internalLinks := dedupFirst (scrapeLinks data)
            isPdf := false
            pageCount := 0 })

/-- scrapePage: its whole body runs inside a single try/catch whose catch
logs a warning and returns null. -/
def scrapePage (url : UrlM) (pdfFetch : Except JsError PdfBytes)
    (htmlFetch : Except JsError HtmlData) : Option PageDoc :=
  match scrapePageBody url pdfFetch htmlFetch with
  | .ok v => v
  | .error _ => none

/-! ### Scraper claim theorem (C10) -/

/-- C10: for every URL and every outcome of the fetches and parses,
scrapePage returns a page document or null and never propagates an
exception: every error of its body, and of processPdf's body to which it
delegates PDF URLs, is caught and converted to null; in particular a failed
download, an oversized PDF, a failed HTML fetch and an insufficient-content
page all yield null. -/
theorem scrapePage_total (url : UrlM) (pdfFetch : Except JsError PdfBytes)
    (htmlFetch : Except JsError HtmlData) :
    (scrapePage url pdfFetch htmlFetch = none ∨
      ∃ d, scrapePage url pdfFetch htmlFetch = some d) ∧
    (∀ e, scrapePageBody url pdfFetch htmlFetch = .error e →
      scrapePage url pdfFetch htmlFetch = none) ∧
    (∀ e, processPdfBody url pdfFetch = .error e → processPdf url pdfFetch = none) ∧
    (∀ e, pdfFetch = .error e → processPdf url pdfFetch = none) ∧
    (∀ bytes, pdfFetch = .ok bytes → CONFIG.maxPdfSize < bytes.byteLength →
      processPdf url pdfFetch = none) ∧
    (∀ e, htmlFetch = .error e → (isPdfUrl url && CONFIG.enablePdfProcessing) = false →
      scrapePage url pdfFetch htmlFetch = none) ∧
    (∀ data, htmlFetch = .ok data → (isPdfUrl url && CONFIG.enablePdfProcessing) = false →
      data.extractedText.length < 200 → scrapePage url pdfFetch htmlFetch = none) := by
  refine ⟨?_, ?_, ?_, ?_, ?_, ?_, ?_⟩
  · cases hs : scrapePage url pdfFetch htmlFetch with
    | none => exact Or.inl rfl
    | some d => exact Or.inr ⟨d, rfl⟩
  · intro e he
    unfold scrapePage
    rw [he]
  · intro e he
    unfold processPdf
    rw [he]
  · intro e he
    subst he
    rfl
  · intro bytes hb hover
    subst hb
    unfold processPdf processPdfBody
    dsimp only
    rw [if_pos hover]
  · intro e he hpdf
    subst he
    unfold scrapePage scrapePageBody
    rw [if_neg (by simp [hpdf])]
  · intro data hd hpdf hshort
    subst hd
    unfold scrapePage scrapePageBody
    rw [if_neg (by simp [hpdf])]
    dsimp only
    rw [if_pos hshort]

/-- Witness for scrapePage_total: an unparseable non-PDF URL whose PDF
download and HTML fetch both throw. -/
theorem scrapePage_total_witness :
    scrapePage badUrl (.error ⟨"download failed".toList⟩)
        (.error ⟨"fetch failed".toList⟩) = none ∧
    processPdf badUrl (.error ⟨"download failed".toList⟩) = none :=
  ⟨(scrapePage_total badUrl (.error ⟨"download failed".toList⟩)
      (.error ⟨"fetch failed".toList⟩)).2.2.2.2.2.1 ⟨"fetch failed".toList⟩ rfl rfl,
   (scrapePage_total badUrl (.error ⟨"download failed".toList⟩)
      (.error ⟨"fetch failed".toList⟩)).2.2.2.1 ⟨"download failed".toList⟩ rfl⟩
